import Mathlib

/-!
Shallow embedding of the pharos-exporter monitoring engines
(`internal/log.go`, the block tracker source file, and the construction
path `NewBlockTracker`), together with theorems settling the frozen
claims about the key normalizer, the chain poller and the log follower.

Strings are embedded as `List Char` (the source operates on ASCII byte
strings; Go's `strings` helpers are mirrored on the ASCII fragment).
-/

namespace Pharos

/-- ASCII whitespace recognized by the trimming step (the fragment of
Go's `unicode.IsSpace` relevant to ASCII input). -/
def isSpaceChar (c : Char) : Bool :=
  c = ' ' || c = '\t' || c = '\n' || c = '\r' || c = '\x0b' || c = '\x0c'

/-- Go `strings.TrimSpace`: drop whitespace from both ends. -/
def trimSpace (l : List Char) : List Char :=
  ((l.dropWhile isSpaceChar).reverse.dropWhile isSpaceChar).reverse

/-- ASCII lowercasing of one character, as Go `strings.ToLower` acts on
ASCII letters. -/
def toLowerChar (c : Char) : Char :=
  if 'A' ≤ c ∧ c ≤ 'Z' then Char.ofNat (c.toNat + 32) else c

/-- ASCII uppercasing of one character (used only to state the
case-insensitivity claim about "the uppercase form" of a key). -/
def toUpperChar (c : Char) : Char :=
  if 'a' ≤ c ∧ c ≤ 'z' then Char.ofNat (c.toNat - 32) else c

/-- Function `trim0x` from the tracker source: strip a leading `0x` or `0X`. -/
def trim0x (s : List Char) : List Char :=
  if s.take 2 = ['0', 'x'] ∨ s.take 2 = ['0', 'X'] then s.drop 2 else s

/-- Function `normalizeBlsKey` from the tracker source: trim whitespace, strip the
`0x`/`0X` prefix, lowercase; if the remainder is longer than 96
characters and of even length, keep only the trailing 96. -/
def normalizeBlsKey (s : List Char) : List Char :=
  let t := (trim0x (trimSpace s)).map toLowerChar
  if 96 < t.length ∧ t.length % 2 = 0 then t.drop (t.length - 96) else t

/-- The normalizer exactly as claim C7 words it (no whitespace trimming):
strip the prefix, lowercase, and keep the trailing 96 characters when
longer than 96 and of even length. -/
def claimNormalizeNoTrim (s : List Char) : List Char :=
  let t := (trim0x s).map toLowerChar
  if 96 < t.length ∧ t.length % 2 = 0 then (t.reverse.take 96).reverse else t

/-- The normalizer as the amended claim C7 words it: first trim
surrounding whitespace, then strip the prefix, lowercase, and keep the
trailing 96 characters when longer than 96 and of even length. -/
def claimNormalizeTrim (s : List Char) : List Char :=
  let t := (trim0x (trimSpace s)).map toLowerChar
  if 96 < t.length ∧ t.length % 2 = 0 then (t.reverse.take 96).reverse else t

/-- The sixteen hexadecimal digit characters in both cases. -/
def hexDigits : List Char :=
  ("0123456789abcdefABCDEF").toList

/-- Is `c` a hexadecimal digit? -/
def isHexChar (c : Char) : Bool :=
  decide (c ∈ hexDigits)

/-- Is every character of `l` a hexadecimal digit? -/
def isHexString (l : List Char) : Bool :=
  l.all isHexChar

/-- The sixteen lowercase hexadecimal digit characters. -/
def lowerHexDigits : List Char :=
  ("0123456789abcdef").toList

lemma dropWhile_eq_self_of {p : Char → Bool} {l : List Char}
    (h : ∀ c ∈ l, p c = false) : l.dropWhile p = l := by
  rw [List.dropWhile_eq_self_iff]
  intro hl
  simp only [h (l.get ⟨0, hl⟩) (l.get_mem 0 hl), Bool.false_eq_true,
    not_false_eq_true]

lemma trimSpace_eq_self {l : List Char}
    (h : ∀ c ∈ l, isSpaceChar c = false) : trimSpace l = l := by
  unfold trimSpace
  rw [dropWhile_eq_self_of h, dropWhile_eq_self_of, List.reverse_reverse]
  intro c hc
  exact h c (List.mem_reverse.mp hc)

lemma trim0x_eq_self {l : List Char}
    (h1 : l.take 2 ≠ ['0', 'x']) (h2 : l.take 2 ≠ ['0', 'X']) :
    trim0x l = l := by
  unfold trim0x
  rw [if_neg]
  rintro (h | h)
  · exact h1 h
  · exact h2 h

lemma trim0x_of_hex {l : List Char}
    (h : ∀ c ∈ l, isHexChar c = true) : trim0x l = l := by
  apply trim0x_eq_self <;> intro heq
  · have hx : 'x' ∈ l :=
      List.take_subset 2 l (heq ▸ (by decide : 'x' ∈ (['0', 'x'] : List Char)))
    exact absurd (h _ hx) (by decide)
  · have hx : 'X' ∈ l :=
      List.take_subset 2 l (heq ▸ (by decide : 'X' ∈ (['0', 'X'] : List Char)))
    exact absurd (h _ hx) (by decide)

lemma lowerHex_facts :
    lowerHexDigits.all
      (fun c => !isSpaceChar c && decide (toLowerChar c = c) &&
        isHexChar c) = true := by decide

lemma hex_char_facts :
    hexDigits.all
      (fun c => !isSpaceChar c && decide (toLowerChar c ∈ lowerHexDigits) &&
        decide (toLowerChar (toUpperChar c) = toLowerChar c) &&
        !isSpaceChar (toUpperChar c)) = true := by decide

lemma of_mem_lowerHex {c : Char} (hc : c ∈ lowerHexDigits) :
    isSpaceChar c = false ∧ toLowerChar c = c ∧ isHexChar c = true := by
  have h := List.all_eq_true.mp lowerHex_facts c hc
  simp only [Bool.and_eq_true, Bool.not_eq_true', decide_eq_true_eq] at h
  exact ⟨h.1.1, h.1.2, h.2⟩

lemma of_mem_hex {c : Char} (hc : isHexChar c = true) :
    isSpaceChar c = false ∧ toLowerChar c ∈ lowerHexDigits ∧
      toLowerChar (toUpperChar c) = toLowerChar c ∧
      isSpaceChar (toUpperChar c) = false := by
  have hm : c ∈ hexDigits := of_decide_eq_true hc
  have h := List.all_eq_true.mp hex_char_facts c hm
  simp only [Bool.and_eq_true, Bool.not_eq_true', decide_eq_true_eq] at h
  exact ⟨h.1.1.1, h.1.1.2, h.1.2, h.2⟩

lemma trim0x_of_lowerHex {l : List Char}
    (h : ∀ c ∈ l, c ∈ lowerHexDigits) : trim0x l = l := by
  apply trim0x_eq_self <;> intro heq
  · have hx : 'x' ∈ l :=
      List.take_subset 2 l (heq ▸ (by decide : 'x' ∈ (['0', 'x'] : List Char)))
    exact absurd (h _ hx) (by decide)
  · have hx : 'X' ∈ l :=
      List.take_subset 2 l (heq ▸ (by decide : 'X' ∈ (['0', 'X'] : List Char)))
    exact absurd (h _ hx) (by decide)

/-- On a string of lowercase hex digits the normalizer only applies the
trailing-96 truncation. -/
lemma normalize_lowerHex {l : List Char}
    (h : ∀ c ∈ l, c ∈ lowerHexDigits) :
    normalizeBlsKey l =
      if 96 < l.length ∧ l.length % 2 = 0 then l.drop (l.length - 96)
      else l := by
  have hmap : l.map toLowerChar = l := by
    rw [List.map_congr_left (g := id) fun c hc => (of_mem_lowerHex (h c hc)).2.1]
    exact l.map_id
  unfold normalizeBlsKey
  rw [trimSpace_eq_self (fun c hc => (of_mem_lowerHex (h c hc)).1),
    trim0x_of_lowerHex h, hmap]

/-- Every character of a normalized hex string is a lowercase hex digit. -/
lemma mem_normalize_of_hex {l : List Char}
    (h : ∀ c ∈ l, isHexChar c = true) :
    ∀ c ∈ normalizeBlsKey l, c ∈ lowerHexDigits := by
  unfold normalizeBlsKey
  rw [trimSpace_eq_self (fun c hc => (of_mem_hex (h c hc)).1), trim0x_of_hex h]
  intro c hc
  simp only at hc
  have hc' : c ∈ l.map toLowerChar := by
    by_cases hcnd : 96 < (l.map toLowerChar).length ∧
        (l.map toLowerChar).length % 2 = 0
    · rw [if_pos hcnd] at hc
      exact List.mem_of_mem_drop hc
    · rwa [if_neg hcnd] at hc
  obtain ⟨a, ha, rfl⟩ := List.mem_map.mp hc'
  exact (of_mem_hex (h a ha)).2.1

/-- On a hex string (no whitespace, no prefix possible) the normalizer is
lowercasing followed by the conditional trailing-96 truncation. -/
lemma normalize_of_hex {l : List Char}
    (h : ∀ c ∈ l, isHexChar c = true) :
    normalizeBlsKey l =
      if 96 < l.length ∧ l.length % 2 = 0 then
        (l.map toLowerChar).drop (l.length - 96)
      else l.map toLowerChar := by
  unfold normalizeBlsKey
  rw [trimSpace_eq_self (fun c hc => (of_mem_hex (h c hc)).1), trim0x_of_hex h]
  simp only [List.length_map]

/-- C7 (counterexample): the claim describes the normalizer as acting on
"every input string" by prefix-stripping, lowercasing and conditional
trailing-96 truncation only; on the input `" 0xAB"` (leading space) the
code first trims whitespace and yields `"ab"`, while the claimed
description yields `" 0xab"`. -/
theorem c7_normalizer_counterexample :
    normalizeBlsKey ((" 0xAB").toList) ≠
      claimNormalizeNoTrim ((" 0xAB").toList) := by decide

/-- C7 (amended): for every input string, the normalizer first trims
surrounding whitespace, then strips a leading `0x`/`0X` prefix,
lowercases, and — exactly when the remainder is longer than 96
characters and of even length — keeps only its trailing 96 characters;
otherwise the trimmed, lowercased, unprefixed string is returned
unchanged. -/
theorem c7_normalizer_amended (s : List Char) :
    normalizeBlsKey s = claimNormalizeTrim s := by
  unfold normalizeBlsKey claimNormalizeTrim
  simp only [List.take_reverse, List.reverse_reverse]

/-- C8 (counterexample): normalization is not idempotent on every
string: `normalizeBlsKey "0x0xab" = "0xab"`, and normalizing again
strips the freshly exposed prefix, yielding `"ab"`. -/
theorem c8_not_idempotent_counterexample :
    normalizeBlsKey (normalizeBlsKey (("0x0xab").toList)) ≠
      normalizeBlsKey (("0x0xab").toList) := by decide

/-- C8 (amended): on hex strings (the textual encodings of keys)
normalization is idempotent, and it is case/prefix-insensitive: the
`0x`-prefixed uppercase form and the unprefixed lowercase form of a hex
string normalize to identical values. -/
theorem c8_normalizer_idempotent_hex (l : List Char)
    (h : isHexString l = true) :
    normalizeBlsKey (normalizeBlsKey l) = normalizeBlsKey l ∧
    normalizeBlsKey ('0' :: 'x' :: l.map toUpperChar) =
      normalizeBlsKey (l.map toLowerChar) := by
  have hhex : ∀ c ∈ l, isHexChar c = true := List.all_eq_true.mp h
  constructor
  · have hmem := mem_normalize_of_hex hhex
    rw [normalize_lowerHex hmem]
    have hlen : (normalizeBlsKey l).length =
        if 96 < l.length ∧ l.length % 2 = 0 then 96 else l.length := by
      rw [normalize_of_hex hhex]
      by_cases hc : 96 < l.length ∧ l.length % 2 = 0
      · rw [if_pos hc, if_pos hc, List.length_drop, List.length_map]
        omega
      · rw [if_neg hc, if_neg hc, List.length_map]
    rw [if_neg]
    rw [hlen]
    by_cases hc : 96 < l.length ∧ l.length % 2 = 0
    · rw [if_pos hc]
      omega
    · rw [if_neg hc]
      exact hc
  · have hupper : ∀ c ∈ '0' :: 'x' :: l.map toUpperChar,
        isSpaceChar c = false := by
      intro c hc
      simp only [List.mem_cons] at hc
      rcases hc with rfl | rfl | hc
      · decide
      · decide
      · obtain ⟨a, ha, rfl⟩ := List.mem_map.mp hc
        exact (of_mem_hex (hhex a ha)).2.2.2
    have hlowmem : ∀ c ∈ l.map toLowerChar, c ∈ lowerHexDigits := by
      intro c hc
      obtain ⟨a, ha, rfl⟩ := List.mem_map.mp hc
      exact (of_mem_hex (hhex a ha)).2.1
    unfold normalizeBlsKey
    rw [trimSpace_eq_self hupper,
      trimSpace_eq_self (fun c hc => (of_mem_lowerHex (hlowmem c hc)).1),
      trim0x_of_lowerHex hlowmem]
    have htrim : trim0x ('0' :: 'x' :: l.map toUpperChar) =
        l.map toUpperChar := by
      unfold trim0x
      rw [if_pos]
      · rfl
      · left
        rfl
    rw [htrim, List.map_map, List.map_map]
    have hcomp : l.map (toLowerChar ∘ toUpperChar) =
        l.map (toLowerChar ∘ toLowerChar) := by
      apply List.map_congr_left
      intro a ha
      have h1 := (of_mem_hex (hhex a ha)).2.2.1
      have h2 := (of_mem_lowerHex ((of_mem_hex (hhex a ha)).2.1)).2.1
      simp only [Function.comp_apply, h1, h2]
    rw [hcomp]

/-- Witness for C8 (amended) at the concrete hex string `"Ab"`. -/
theorem c8_normalizer_idempotent_hex_witness :
    isHexString (("Ab").toList) = true ∧
    (normalizeBlsKey (normalizeBlsKey (("Ab").toList)) =
        normalizeBlsKey (("Ab").toList) ∧
      normalizeBlsKey ('0' :: 'x' :: (("Ab").toList).map toUpperChar) =
        normalizeBlsKey ((("Ab").toList).map toLowerChar)) :=
  ⟨by decide, c8_normalizer_idempotent_hex (("Ab").toList) (by decide)⟩

/-- Configuration consumed by `NewBlockTracker` (the `Output` writer is
I/O plumbing with no bearing on construction success and is omitted). -/
structure BlockTrackerConfig where
  rpcURL : List Char
  myBlsKey : List Char
  myAddress : List Char
  checkBlockProof : Bool
  checkValidatorSet : Bool
  pollInterval : Int
deriving DecidableEq

/-- The constructed tracker: configuration plus the normalized key and
validated address computed at construction time. -/
structure BlockTracker where
  cfg : BlockTrackerConfig
  normalizedKey : List Char
  address : List Char
deriving DecidableEq

/-- Constructor `NewBlockTracker` from the tracker source: require an RPC URL,
require a BLS key when block-proof checking is enabled, default the poll
interval, and validate/normalize the optional address (trim, reject
unless the lowercased form starts with `0x` and has total length 42). -/
def newBlockTracker (cfg : BlockTrackerConfig) : Except (List Char) BlockTracker :=
  if cfg.rpcURL = [] then .error (("rpc url is required").toList)
  else if cfg.checkBlockProof = true ∧ trimSpace cfg.myBlsKey = [] then
    .error (("my bls key is required when check block proof is enabled").toList)
  else
    let cfg1 := if cfg.pollInterval ≤ 0 then
      { cfg with pollInterval := 5 } else cfg
    let addr := trimSpace cfg.myAddress
    if addr = [] then .ok ⟨cfg1, normalizeBlsKey cfg.myBlsKey, addr⟩
    else
      let addrLower := addr.map toLowerChar
      if ¬ (addrLower.take 2 = ['0', 'x']) ∨ addrLower.length ≠ 42 then
        .error (("invalid my-address: expected 0x + 40 hex chars").toList)
      else .ok ⟨cfg1, normalizeBlsKey cfg.myBlsKey, addrLower⟩

/-- An address made of `0x` followed by forty `'z'` characters: correct
prefix and length, but not hexadecimal. -/
def addrZ : List Char := '0' :: 'x' :: List.replicate 40 'z'

/-- A configuration whose only noteworthy field is the non-hex address. -/
def c4CexConfig : BlockTrackerConfig :=
  ⟨("r").toList, [], addrZ, false, false, 1⟩

/-- C4 (counterexample): construction accepts an address whose remainder
after the `0x` prefix is forty non-hex characters — the code checks only
the prefix and the total length, never hexness, so "succeeds iff the
remainder is exactly 40 hexadecimal characters" is false. -/
theorem c4_counterexample :
    (newBlockTracker c4CexConfig).isOk = true ∧
    isHexString (((trimSpace c4CexConfig.myAddress).map toLowerChar).drop 2)
      = false := by decide

/-- C4 (amended): for every configured address that is non-empty after
trimming (and a configuration passing the RPC-URL and BLS-key checks),
construction succeeds if and only if the trimmed, lowercased address
starts with `0x` and has total length 42 (exactly 40 characters after
the prefix — hexness of those characters is not checked); otherwise it
is rejected with an invalid-address error at construction time. -/
theorem c4_address_validation_amended (cfg : BlockTrackerConfig)
    (hrpc : ¬ cfg.rpcURL = [])
    (hkey : ¬ (cfg.checkBlockProof = true ∧ trimSpace cfg.myBlsKey = []))
    (haddr : ¬ trimSpace cfg.myAddress = []) :
    (newBlockTracker cfg).isOk = true ↔
      ((trimSpace cfg.myAddress).map toLowerChar).take 2 = ['0', 'x'] ∧
        ((trimSpace cfg.myAddress).map toLowerChar).length = 42 := by
  simp only [newBlockTracker]
  rw [if_neg hrpc, if_neg hkey, if_neg haddr]
  by_cases hc : ¬ (((trimSpace cfg.myAddress).map toLowerChar).take 2
      = ['0', 'x']) ∨ ((trimSpace cfg.myAddress).map toLowerChar).length ≠ 42
  · rw [if_pos hc]
    simp only [Except.isOk, Except.toBool, Bool.false_eq_true, false_iff]
    tauto
  · rw [if_neg hc]
    simp only [Except.isOk, Except.toBool, true_iff]
    push_neg at hc
    exact hc

/-- A configuration with a well-formed `0x` + 40-hex-char address. -/
def c4WitnessConfig : BlockTrackerConfig :=
  ⟨("r").toList, [], '0' :: 'x' :: List.replicate 40 'a', false, false, 1⟩

/-- Witness for C4 (amended) at a well-formed 40-hex-char address. -/
theorem c4_address_validation_amended_witness :
    (¬ (c4WitnessConfig).rpcURL = [] ∧
      ¬ ((c4WitnessConfig).checkBlockProof = true ∧
          trimSpace (c4WitnessConfig).myBlsKey = []) ∧
      ¬ trimSpace (c4WitnessConfig).myAddress = []) ∧
    ((newBlockTracker c4WitnessConfig).isOk = true ↔
      ((trimSpace (c4WitnessConfig).myAddress).map toLowerChar).take 2
          = ['0', 'x'] ∧
        ((trimSpace (c4WitnessConfig).myAddress).map toLowerChar).length
          = 42) :=
  ⟨⟨by decide, by decide, by decide⟩,
    c4_address_validation_amended c4WitnessConfig
      (by decide) (by decide) (by decide)⟩

/-- The two event-extraction flags carried by `LogMetrics` in
`internal/log.go`. -/
structure LogMetrics where
  checkPropose : Bool
  checkEndorse : Bool
deriving DecidableEq

/-- The four log-derived metric cells of the metrics sink written by
`LogMetrics.Update` (`ProposeTotal`, `LastProposeTimestamp`,
`EndorseTotal`, `LastEndorseTimestamp`). -/
structure LogMetricsState where
  proposeTotal : Nat
  lastProposeTs : Int
  endorseTotal : Nat
  lastEndorseTs : Int
deriving DecidableEq

/-- The substring marking a propose event in a log line. -/
def proposeMarker : List Char := ("Propose, seq:").toList

/-- The substring marking an endorse event in a log line. -/
def endorseMarker : List Char := ("endorse seq ").toList

/-- Go `strings.Contains hay needle`: does `needle` occur as a
contiguous substring of `hay`? -/
def containsSub : List Char → List Char → Bool
  | [], needle => decide (needle = [])
  | c :: rest, needle =>
    decide ((c :: rest).take needle.length = needle) || containsSub rest needle

/-- Method `LogMetrics.Update` from `internal/log.go`: a line containing the
propose marker increments the propose counter and sets its timestamp
when propose-checking is enabled, and returns without further checks
otherwise; only a line not containing the propose marker is tested for
the endorse marker. `ts` is the value `parseLogTimestamp` produced for
the line (parsed line time or wall clock — which of the two is
irrelevant to the claims settled here). -/
def LogMetrics.Update (m : LogMetrics) (line : List Char) (ts : Int)
    (st : LogMetricsState) : LogMetricsState :=
  if containsSub line proposeMarker then
    if m.checkPropose = false then st
    else { st with proposeTotal := st.proposeTotal + 1, lastProposeTs := ts }
  else if containsSub line endorseMarker then
    if m.checkEndorse = false then st
    else { st with endorseTotal := st.endorseTotal + 1, lastEndorseTs := ts }
  else st

/-- A line containing both the propose marker and the endorse marker. -/
def bothMarkersLine : List Char := ("Propose, seq: 1 endorse seq 2").toList

/-- C9 (counterexample): with propose-checking disabled and
endorse-checking enabled, a line containing both markers contains the
endorse marker yet leaves the endorse counter (and the whole metrics
state) unchanged — the propose branch returns before the endorse test —
so "every line containing the endorse marker still increments the
endorse counter" is false. -/
theorem c9_counterexample :
    containsSub bothMarkersLine endorseMarker = true ∧
    LogMetrics.Update ⟨false, true⟩ bothMarkersLine 7 ⟨0, 0, 0, 0⟩
      = ⟨0, 0, 0, 0⟩ := by decide

/-- C9 (amended): with propose-checking disabled and endorse-checking
enabled, a line containing the propose marker never increments the
propose counter, and every line containing the endorse marker **and not
the propose marker** increments the endorse counter and sets the
last-endorse timestamp. -/
theorem c9_flags_amended (line : List Char) (ts : Int) (st : LogMetricsState) :
    (containsSub line proposeMarker = true →
      (LogMetrics.Update ⟨false, true⟩ line ts st).proposeTotal
        = st.proposeTotal) ∧
    (containsSub line endorseMarker = true →
      containsSub line proposeMarker = false →
      (LogMetrics.Update ⟨false, true⟩ line ts st).endorseTotal
          = st.endorseTotal + 1 ∧
        (LogMetrics.Update ⟨false, true⟩ line ts st).lastEndorseTs = ts) := by
  constructor
  · intro hp
    simp [LogMetrics.Update, hp]
  · intro he hp
    simp [LogMetrics.Update, hp, he]

/-- Witness for C9 (amended) at a concrete endorse-only line. -/
theorem c9_flags_amended_witness :
    (containsSub (("endorse seq 5").toList) endorseMarker = true ∧
      containsSub (("endorse seq 5").toList) proposeMarker = false) ∧
    ((LogMetrics.Update ⟨false, true⟩ (("endorse seq 5").toList) 3
        ⟨0, 0, 0, 0⟩).endorseTotal = 0 + 1 ∧
      (LogMetrics.Update ⟨false, true⟩ (("endorse seq 5").toList) 3
        ⟨0, 0, 0, 0⟩).lastEndorseTs = 3) :=
  ⟨⟨by decide, by decide⟩,
    (c9_flags_amended (("endorse seq 5").toList) 3 ⟨0, 0, 0, 0⟩).2
      (by decide) (by decide)⟩

/-- Filesystem errors as the tailer distinguishes them: Go's
`os.IsNotExist` class versus everything else. -/
inductive FsError where
  | notFound
  | other (msg : List Char)
deriving DecidableEq

/-- State of `LogTailer` while tailing: the content of the file the open
handle refers to, the reader's consumed position within it, and the
tracked `offset` and `inode` fields. -/
structure TailState where
  fileContent : List Char
  readPos : Nat
  offset : Nat
  inode : Nat
deriving DecidableEq

instance {ε α : Type} [DecidableEq ε] [DecidableEq α] :
    DecidableEq (Except ε α) := fun a b =>
  match a, b with
  | .ok a1, .ok a2 => decidable_of_iff (a1 = a2) (by simp)
  | .error e1, .error e2 => decidable_of_iff (e1 = e2) (by simp)
  | .ok _, .error _ => .isFalse (fun hc => Except.noConfusion hc)
  | .error _, .ok _ => .isFalse (fun hc => Except.noConfusion hc)

/-- The filesystem as seen through the configured path during one step:
the result of `os.Stat(path)` (inode and size, with `inodeFromInfo`
folded in), and the result of `os.Open(path)` plus the stat on the new
handle. -/
structure TailEnv where
  pathStat : Except FsError (Nat × Nat)
  pathOpen : Except FsError (Nat × List Char)
deriving DecidableEq

/-- Model of `bufio.Reader.ReadBytes` at delimiter newline on the reader's pending bytes: the
bytes up to and including the first newline with no error (`false`), or
all pending bytes together with `io.EOF` (`true`) when no newline is
present. -/
def readBytesNewline : List Char → List Char × Bool
  | [] => ([], true)
  | c :: rest =>
    if c = '\n' then ([c], false)
    else
      let r := readBytesNewline rest
      (c :: r.1, r.2)

/-- Method `LogTailer.openFile`: open the path, read the handle's identity,
and position at end-of-file when `startAtEnd` (the reader then starts
at that offset), otherwise at 0. -/
def openFile (res : Except FsError (Nat × List Char)) (startAtEnd : Bool) :
    Except FsError TailState :=
  match res with
  | .error e => .error e
  | .ok (ino, content) =>
    let off := if startAtEnd then content.length else 0
    .ok ⟨content, off, off, ino⟩

/-- Method `LogTailer.reopenIfRotated`: re-stat the path, propagating a stat
failure; when the stat inode differs from the tracked one or the stat
size is smaller than the tracked offset, reopen at offset 0 and report
a rotation; otherwise report none. -/
def reopenIfRotated (env : TailEnv) (st : TailState) :
    Except FsError (Bool × TailState) :=
  match env.pathStat with
  | .error e => .error e
  | .ok (ino, size) =>
    if ino ≠ st.inode ∨ size < st.offset then
      match openFile env.pathOpen false with
      | .error e => .error e
      | .ok st' => .ok (true, st')
    else .ok (false, st)

/-- The bytes the read of one tailing iteration consumes. -/
def tailConsumed (st : TailState) : List Char :=
  (readBytesNewline (st.fileContent.drop st.readPos)).1

/-- Did the read of one tailing iteration hit end-of-stream? -/
def tailAtEOF (st : TailState) : Bool :=
  (readBytesNewline (st.fileContent.drop st.readPos)).2

/-- The tailer state after the read of one iteration: when the read
returned bytes, the reader position and the tracked offset advance by
their length (log.go lines 83-87). -/
def tailAdvanced (st : TailState) : TailState :=
  if tailConsumed st = [] then st
  else { st with readPos := st.readPos + (tailConsumed st).length,
                 offset := st.offset + (tailConsumed st).length }

/-- The bytes one iteration hands to `LogMetrics.Update`, if any. -/
def tailEmitted (st : TailState) : Option (List Char) :=
  if tailConsumed st = [] then none else some (tailConsumed st)

/-- Outcome of one iteration of the tailing loop: loop immediately,
sleep for the poll interval first, or return the error. -/
inductive TailStep where
  | next (st : TailState)
  | sleepNext (st : TailState)
  | fail (e : FsError)
deriving DecidableEq

/-- One iteration of the tailing loop of `LogTailer.Start` (log.go
lines 75-105): read up to a newline; whenever the read returned bytes,
hand them to `LogMetrics.Update` (recorded in the first component) and
advance the offset; after a clean read loop immediately; at
end-of-stream run the rotation check, failing on its error, looping
immediately after a reopen, and sleeping otherwise. -/
def tailLoopStep (env : TailEnv) (st : TailState) :
    Option (List Char) × TailStep :=
  if tailAtEOF st = false then (tailEmitted st, .next (tailAdvanced st))
  else
    match reopenIfRotated env (tailAdvanced st) with
    | .error e => (tailEmitted st, .fail e)
    | .ok (true, st2) => (tailEmitted st, .next st2)
    | .ok (false, st2) => (tailEmitted st, .sleepNext st2)

/-- Outcome of one iteration of the opening loop. -/
inductive OpenStep where
  | retrySleep
  | fail (e : FsError)
  | opened (st : TailState)
deriving DecidableEq

/-- One iteration of the opening loop of `LogTailer.Start` (log.go
lines 60-72): a not-found open error sleeps and retries, any other
error is fatal, success enters tailing (positioned at the end unless
`FromStart` was configured). -/
def startOpenStep (openRes : Except FsError (Nat × List Char))
    (fromStart : Bool) : OpenStep :=
  match openFile openRes (!fromStart) with
  | .error FsError.notFound => .retrySleep
  | .error e => .fail e
  | .ok st => .opened st

lemma reopenIfRotated_stat_err {env : TailEnv} {st : TailState} {e : FsError}
    (h : env.pathStat = .error e) : reopenIfRotated env st = .error e := by
  unfold reopenIfRotated
  rw [h]

lemma reopenIfRotated_no {env : TailEnv} {st : TailState} {ino size : Nat}
    (hstat : env.pathStat = .ok (ino, size))
    (hcond : ¬(ino ≠ st.inode ∨ size < st.offset)) :
    reopenIfRotated env st = .ok (false, st) := by
  unfold reopenIfRotated
  rw [hstat]
  simp only [if_neg hcond]

lemma reopenIfRotated_yes {env : TailEnv} {st : TailState}
    {ino size ino2 : Nat} {c2 : List Char}
    (hstat : env.pathStat = .ok (ino, size))
    (hopen : env.pathOpen = .ok (ino2, c2))
    (hcond : ino ≠ st.inode ∨ size < st.offset) :
    reopenIfRotated env st = .ok (true, ⟨c2, 0, 0, ino2⟩) := by
  unfold reopenIfRotated
  rw [hstat]
  simp only [if_pos hcond, openFile, hopen, Bool.false_eq_true, if_false]

lemma readBytesNewline_no_newline {l : List Char} (h : '\n' ∉ l) :
    readBytesNewline l = (l, true) := by
  induction l with
  | nil => rfl
  | cons c rest ih =>
    simp only [List.mem_cons, not_or] at h
    unfold readBytesNewline
    rw [if_neg (fun hc : c = '\n' => h.1 hc.symm)]
    simp only [ih h.2]

lemma tailAdvanced_inode (st : TailState) :
    (tailAdvanced st).inode = st.inode := by
  unfold tailAdvanced
  split <;> rfl

lemma tailAdvanced_offset (st : TailState) :
    (tailAdvanced st).offset = st.offset + (tailConsumed st).length := by
  unfold tailAdvanced
  split
  · rename_i h
    rw [h]
    rfl
  · rfl

/-- C1 (counterexample): with the open file containing `"abc"` and no
newline, one tailing iteration at end-of-stream hands the partial bytes
`"abc"` to the line-event extractor and advances the byte offset from 0
to 3 — refuting "a sequence of bytes not yet terminated by a newline is
never handed to the line-event extractor and never advances the byte
offset". -/
theorem c1_counterexample :
    tailLoopStep ⟨.ok (1, 3), .ok (1, ("abc").toList)⟩
        ⟨("abc").toList, 0, 0, 1⟩
      = (some (("abc").toList),
          TailStep.sleepNext ⟨("abc").toList, 3, 3, 1⟩) ∧
    some (("abc").toList) ≠ (none : Option (List Char)) ∧
    (3 : Nat) ≠ 0 := by decide

/-- C1 (amended): reaching end-of-stream mid-line hands the buffered
partial bytes to the line-event extractor immediately, in one chunk, and
advances the byte offset by their length; the bytes are consumed by the
read, so nothing of them remains pending for a later tick (each byte is
processed exactly once, but before — not after — its terminating newline
arrives). Stated for a step in which no rotation is detected. -/
theorem c1_partial_line_amended (env : TailEnv) (st : TailState) (sz : Nat)
    (hne : st.fileContent.drop st.readPos ≠ [])
    (hnl : '\n' ∉ st.fileContent.drop st.readPos)
    (hstat : env.pathStat = .ok (st.inode, sz))
    (hsz : st.offset + (st.fileContent.drop st.readPos).length ≤ sz) :
    tailLoopStep env st =
      (some (st.fileContent.drop st.readPos),
        TailStep.sleepNext
          { st with
            readPos := st.readPos + (st.fileContent.drop st.readPos).length,
            offset := st.offset + (st.fileContent.drop st.readPos).length }) ∧
    st.fileContent.drop
      (st.readPos + (st.fileContent.drop st.readPos).length) = [] := by
  have hr : readBytesNewline (st.fileContent.drop st.readPos)
      = (st.fileContent.drop st.readPos, true) :=
    readBytesNewline_no_newline hnl
  have hcons : tailConsumed st = st.fileContent.drop st.readPos := by
    unfold tailConsumed
    rw [hr]
  have heof : tailAtEOF st = true := by
    unfold tailAtEOF
    rw [hr]
  have hadv : tailAdvanced st =
      { st with
        readPos := st.readPos + (st.fileContent.drop st.readPos).length,
        offset := st.offset + (st.fileContent.drop st.readPos).length } := by
    unfold tailAdvanced
    rw [hcons, if_neg hne]
  have hemit : tailEmitted st = some (st.fileContent.drop st.readPos) := by
    unfold tailEmitted
    rw [hcons, if_neg hne]
  have hcond : ¬(st.inode ≠ (tailAdvanced st).inode ∨
      sz < (tailAdvanced st).offset) := by
    rw [tailAdvanced_inode, tailAdvanced_offset, hcons]
    rintro (hio | hsz')
    · exact hio rfl
    · omega
  constructor
  · unfold tailLoopStep
    rw [heof]
    simp only [Bool.true_eq_false, if_false]
    rw [reopenIfRotated_no hstat hcond, hemit, hadv]
  · rw [← List.drop_drop, List.drop_length]

/-- Witness for C1 (amended) at the concrete state with pending bytes
`"ab"` and no newline. -/
theorem c1_partial_line_amended_witness :
    ((("ab").toList : List Char).drop 0 ≠ [] ∧
      '\n' ∉ (("ab").toList : List Char).drop 0) ∧
    tailLoopStep ⟨.ok (1, 5), .ok (1, [])⟩ ⟨("ab").toList, 0, 0, 1⟩ =
      (some ((("ab").toList : List Char).drop 0),
        TailStep.sleepNext
          { (⟨("ab").toList, 0, 0, 1⟩ : TailState) with
            readPos := 0 + ((("ab").toList : List Char).drop 0).length,
            offset := 0 + ((("ab").toList : List Char).drop 0).length }) ∧
    (("ab").toList : List Char).drop
      (0 + ((("ab").toList : List Char).drop 0).length) = [] :=
  ⟨⟨by decide, by decide⟩,
    (c1_partial_line_amended ⟨.ok (1, 5), .ok (1, [])⟩
      ⟨("ab").toList, 0, 0, 1⟩ 5 (by decide) (by decide) rfl (by decide)).1,
    (c1_partial_line_amended ⟨.ok (1, 5), .ok (1, [])⟩
      ⟨("ab").toList, 0, 0, 1⟩ 5 (by decide) (by decide) rfl (by decide)).2⟩

/-- C6: at end-of-stream the follower re-stats the path; exactly when
the stat inode differs from the tracked inode or the stat size is
smaller than the tracked byte offset, it reopens with the byte offset
(and read position) reset to 0 on the newly opened content and loops
immediately without sleeping; otherwise it sleeps for the poll interval
with the state untouched. In every step the pre-rotation-check offset
only grows, by exactly the consumed length, and a clean (non-EOF) read
loops immediately with that grown offset. -/
theorem c6_rotation_detection (env : TailEnv) (st : TailState)
    (ino size ino2 : Nat) (c2 : List Char)
    (hstat : env.pathStat = .ok (ino, size))
    (hopen : env.pathOpen = .ok (ino2, c2)) :
    (tailAtEOF st = true →
      ((ino ≠ st.inode ∨ size < (tailAdvanced st).offset →
          tailLoopStep env st = (tailEmitted st, .next ⟨c2, 0, 0, ino2⟩)) ∧
        (ino = st.inode → (tailAdvanced st).offset ≤ size →
          tailLoopStep env st = (tailEmitted st, .sleepNext (tailAdvanced st))))) ∧
    (tailAtEOF st = false →
      tailLoopStep env st = (tailEmitted st, .next (tailAdvanced st))) ∧
    (tailAdvanced st).offset = st.offset + (tailConsumed st).length ∧
    (tailAdvanced st).inode = st.inode := by
  refine ⟨?_, ?_, tailAdvanced_offset st, tailAdvanced_inode st⟩
  · intro heof
    constructor
    · intro hrot
      have hrot' : ino ≠ (tailAdvanced st).inode ∨
          size < (tailAdvanced st).offset := by
        rw [tailAdvanced_inode]
        exact hrot
      unfold tailLoopStep
      rw [heof]
      simp only [Bool.true_eq_false, if_false]
      rw [reopenIfRotated_yes hstat hopen hrot']
    · intro hino hsize
      have hcond : ¬(ino ≠ (tailAdvanced st).inode ∨
          size < (tailAdvanced st).offset) := by
        rw [tailAdvanced_inode]
        rintro (h | h)
        · exact h hino
        · omega
      unfold tailLoopStep
      rw [heof]
      simp only [Bool.true_eq_false, if_false]
      rw [reopenIfRotated_no hstat hcond]
  · intro heof
    unfold tailLoopStep
    rw [heof]
    simp only [if_true]

/-- Witness for C6 at a concrete rotated environment: pending bytes
empty, stat shows a new inode, reopen yields fresh content. -/
theorem c6_rotation_detection_witness :
    (tailAtEOF ⟨("ab").toList, 2, 2, 1⟩ = true →
      ((2 ≠ (⟨("ab").toList, 2, 2, 1⟩ : TailState).inode ∨ (0 : Nat) <
          (tailAdvanced ⟨("ab").toList, 2, 2, 1⟩).offset →
          tailLoopStep ⟨.ok (2, 0), .ok (2, ("xy").toList)⟩
              ⟨("ab").toList, 2, 2, 1⟩
            = (tailEmitted ⟨("ab").toList, 2, 2, 1⟩,
                .next ⟨("xy").toList, 0, 0, 2⟩)) ∧
        (2 = (⟨("ab").toList, 2, 2, 1⟩ : TailState).inode →
          (tailAdvanced ⟨("ab").toList, 2, 2, 1⟩).offset ≤ 0 →
          tailLoopStep ⟨.ok (2, 0), .ok (2, ("xy").toList)⟩
              ⟨("ab").toList, 2, 2, 1⟩
            = (tailEmitted ⟨("ab").toList, 2, 2, 1⟩,
                .sleepNext (tailAdvanced ⟨("ab").toList, 2, 2, 1⟩))))) ∧
    (tailAtEOF ⟨("ab").toList, 2, 2, 1⟩ = false →
      tailLoopStep ⟨.ok (2, 0), .ok (2, ("xy").toList)⟩
          ⟨("ab").toList, 2, 2, 1⟩
        = (tailEmitted ⟨("ab").toList, 2, 2, 1⟩,
            .next (tailAdvanced ⟨("ab").toList, 2, 2, 1⟩))) ∧
    (tailAdvanced ⟨("ab").toList, 2, 2, 1⟩).offset =
      (⟨("ab").toList, 2, 2, 1⟩ : TailState).offset +
        (tailConsumed ⟨("ab").toList, 2, 2, 1⟩).length ∧
    (tailAdvanced ⟨("ab").toList, 2, 2, 1⟩).inode =
      (⟨("ab").toList, 2, 2, 1⟩ : TailState).inode :=
  c6_rotation_detection ⟨.ok (2, 0), .ok (2, ("xy").toList)⟩
    ⟨("ab").toList, 2, 2, 1⟩ 2 0 2 (("xy").toList) rfl rfl

/-- C10: once tailing, a stat failure during the rotation check —
including a not-found error from the file having been removed —
terminates the follower with exactly that error; the sleep-and-retry
treatment of an absent file exists only in the opening loop, where a
retry happens precisely for the not-found error. -/
theorem c10_stat_failure_fatal (env : TailEnv) (st : TailState)
    (e : FsError) (b : Bool)
    (heof : tailAtEOF st = true)
    (hstat : env.pathStat = .error e) :
    (tailLoopStep env st).2 = TailStep.fail e ∧
    (startOpenStep (.error e) b = OpenStep.retrySleep ↔ e = FsError.notFound) := by
  constructor
  · unfold tailLoopStep
    rw [heof]
    simp only [Bool.true_eq_false, if_false]
    rw [reopenIfRotated_stat_err hstat]
  · unfold startOpenStep openFile
    cases e
    · simp
    · simp

/-- Witness for C10: a not-found stat error at an end-of-stream state
fails the tailing loop, while the same error retries in the opening
loop. -/
theorem c10_stat_failure_fatal_witness :
    tailAtEOF ⟨[], 0, 0, 1⟩ = true ∧
    ((tailLoopStep ⟨.error FsError.notFound, .ok (1, [])⟩
        ⟨[], 0, 0, 1⟩).2 = TailStep.fail FsError.notFound ∧
      (startOpenStep (.error FsError.notFound) true = OpenStep.retrySleep ↔
        FsError.notFound = FsError.notFound)) :=
  ⟨by decide,
    c10_stat_failure_fatal ⟨.error FsError.notFound, .ok (1, [])⟩
      ⟨[], 0, 0, 1⟩ FsError.notFound true (by decide) rfl⟩

/-- The four chain-derived metric cells of the metrics sink written by
`BlockTracker.Start` (`VoteInclusionTotal`, `VoteInclusionTimestamp`,
`ActiveTotal`, `ActiveTimestamp`). -/
structure TrackerMetrics where
  voteInclusionTotal : Nat
  voteInclusionTs : Int
  activeTotal : Nat
  activeTs : Int
deriving DecidableEq

/-- The RPC surface the poller reads per height: the `signedBlsKeys` of
`debug_getBlockProof` and the validator BLS keys of
`debug_getValidatorInfo`. Heights index the oracle directly since the
hex encoding the code sends (`fmt.Sprintf` with `0x%x`) is injective in
the height. -/
structure ChainEnv (E : Type) where
  blockProof : Nat → Except E (List (List Char))
  validators : Nat → Except E (List (List Char))

/-- The per-height body of the catch-up loop of `BlockTracker.Start`
(lines 142-177): when block-proof checking is enabled, fetch the proof
(propagating failure) and on membership of the normalized key in
`signedBlsKeys` bump the vote-inclusion counter and timestamp; then,
when validator-set checking is enabled, fetch the set (propagating
failure) and on membership bump the active counter and timestamp. `nk`
is the tracker's precomputed `normalizedKey`; `now` stands for the
wall-clock reading `time.Now().Unix()`. -/
def checkHeight {E : Type} (env : ChainEnv E) (cbp cvs : Bool)
    (nk : List Char) (now : Int) (h : Nat) (ms : TrackerMetrics) :
    Except E TrackerMetrics :=
  let step1 : Except E TrackerMetrics :=
    if cbp then
      match env.blockProof h with
      | .error e => .error e
      | .ok keys =>
        if keys.any (fun pk => normalizeBlsKey pk == nk) then
          .ok { ms with voteInclusionTotal := ms.voteInclusionTotal + 1,
                        voteInclusionTs := now }
        else .ok ms
    else .ok ms
  match step1 with
  | .error e => .error e
  | .ok ms1 =>
    if cvs then
      match env.validators h with
      | .error e => .error e
      | .ok vks =>
        if vks.any (fun k => normalizeBlsKey k == nk) then
          .ok { ms1 with activeTotal := ms1.activeTotal + 1,
                         activeTs := now }
        else .ok ms1
    else .ok ms1

/-- The inner `for` loop of one catch-up pass, instrumented with the
list of heights actually iterated: heights are visited strictly in
order, and the first failing height ends the pass with its error. -/
def scanHeights {E : Type} (env : ChainEnv E) (cbp cvs : Bool)
    (nk : List Char) (now : Int) :
    List Nat → TrackerMetrics → List Nat × Except E TrackerMetrics
  | [], ms => ([], .ok ms)
  | h :: hs, ms =>
    match checkHeight env cbp cvs nk now h ms with
    | .error e => ([h], .error e)
    | .ok ms' =>
      let r := scanHeights env cbp cvs nk now hs ms'
      (h :: r.1, r.2)

/-- One tick of the outer loop of `BlockTracker.Start` against a fetched
tip `latest` (lines 132-179): when `latest ≤ lastChecked` nothing is
scanned and the cursor is unchanged (idle wait); otherwise heights
`lastChecked+1 .. latest` are scanned in order and on success the cursor
advances to `latest`; a scan error is returned as the tick's result. -/
def catchUpTick {E : Type} (env : ChainEnv E) (cbp cvs : Bool)
    (nk : List Char) (now : Int) (cursor latest : Nat)
    (ms : TrackerMetrics) :
    List Nat × Except E (TrackerMetrics × Nat) :=
  if latest ≤ cursor then ([], .ok (ms, cursor))
  else
    let s := scanHeights env cbp cvs nk now
      (List.range' (cursor + 1) (latest - cursor)) ms
    (s.1, s.2.map (fun ms' => (ms', latest)))

/-- The outer loop of `BlockTracker.Start` run against a sequence of
successive tip readings: each executed tick records the heights it
scanned and the cursor after it; an erroring tick ends the loop (the
error propagates out of `Start`) with the cursor unchanged. Returns the
tick records and the final cursor. -/
def runTicks {E : Type} (env : ChainEnv E) (cbp cvs : Bool)
    (nk : List Char) (now : Int) :
    Nat → TrackerMetrics → List Nat → List (List Nat × Nat) × Nat
  | cursor, _, [] => ([], cursor)
  | cursor, ms, latest :: rest =>
    match catchUpTick env cbp cvs nk now cursor latest ms with
    | (hs, .error _) => ([(hs, cursor)], cursor)
    | (hs, .ok (ms', c')) =>
      let r := runTicks env cbp cvs nk now c' ms' rest
      ((hs, c') :: r.1, r.2)

lemma scanHeights_sublist {E : Type} (env : ChainEnv E) (cbp cvs : Bool)
    (nk : List Char) (now : Int) :
    ∀ (l : List Nat) (ms : TrackerMetrics),
      ((scanHeights env cbp cvs nk now l ms).1).Sublist l := by
  intro l
  induction l with
  | nil =>
    intro ms
    exact List.nil_sublist []
  | cons h hs ih =>
    intro ms
    unfold scanHeights
    cases hch : checkHeight env cbp cvs nk now h ms
    · exact List.Sublist.cons₂ h (List.nil_sublist hs)
    · exact List.Sublist.cons₂ h (ih _)

lemma scanHeights_cons_ok {E : Type} {env : ChainEnv E} {cbp cvs : Bool}
    {nk : List Char} {now : Int} {h : Nat} {hs : List Nat}
    {ms ms' : TrackerMetrics}
    (hch : checkHeight env cbp cvs nk now h ms = .ok ms') :
    scanHeights env cbp cvs nk now (h :: hs) ms =
      (h :: (scanHeights env cbp cvs nk now hs ms').1,
        (scanHeights env cbp cvs nk now hs ms').2) := by
  conv_lhs => rw [scanHeights]
  rw [hch]

lemma checkHeight_bpOnly {E : Type} {env : ChainEnv E} {nk : List Char}
    {now : Int} {h : Nat} {ms : TrackerMetrics} {keys : List (List Char)}
    (hbp : env.blockProof h = .ok keys) :
    checkHeight env true false nk now h ms =
      .ok (if keys.any (fun pk => normalizeBlsKey pk == nk) then
            { ms with voteInclusionTotal := ms.voteInclusionTotal + 1,
                      voteInclusionTs := now }
          else ms) := by
  unfold checkHeight
  rw [hbp]
  by_cases hany : (keys.any fun pk => normalizeBlsKey pk == nk) = true
  · simp only [hany, if_true, Bool.false_eq_true, if_false]
  · simp only [if_neg hany, if_true, Bool.false_eq_true, if_false]

lemma catchUpTick_idle {E : Type} {env : ChainEnv E} {cbp cvs : Bool}
    {nk : List Char} {now : Int} {cursor latest : Nat} {ms : TrackerMetrics}
    (hle : latest ≤ cursor) :
    catchUpTick env cbp cvs nk now cursor latest ms = ([], .ok (ms, cursor)) := by
  unfold catchUpTick
  rw [if_pos hle]

lemma catchUpTick_active_ok {E : Type} {env : ChainEnv E} {cbp cvs : Bool}
    {nk : List Char} {now : Int} {cursor latest : Nat}
    {ms msf : TrackerMetrics} {hs : List Nat}
    (hgt : ¬ latest ≤ cursor)
    (hscan : scanHeights env cbp cvs nk now
        (List.range' (cursor + 1) (latest - cursor)) ms = (hs, .ok msf)) :
    catchUpTick env cbp cvs nk now cursor latest ms
      = (hs, .ok (msf, latest)) := by
  unfold catchUpTick
  rw [if_neg hgt]
  simp only [hscan, Except.map]

lemma catchUpTick_active_err {E : Type} {env : ChainEnv E} {cbp cvs : Bool}
    {nk : List Char} {now : Int} {cursor latest : Nat}
    {ms : TrackerMetrics} {hs : List Nat} {e : E}
    (hgt : ¬ latest ≤ cursor)
    (hscan : scanHeights env cbp cvs nk now
        (List.range' (cursor + 1) (latest - cursor)) ms = (hs, .error e)) :
    catchUpTick env cbp cvs nk now cursor latest ms = (hs, .error e) := by
  unfold catchUpTick
  rw [if_neg hgt]
  simp only [hscan, Except.map]

lemma runTicks_cons_err {E : Type} {env : ChainEnv E} {cbp cvs : Bool}
    {nk : List Char} {now : Int} {cursor latest : Nat}
    {ms : TrackerMetrics} {rest : List Nat} {hs : List Nat} {e : E}
    (hct : catchUpTick env cbp cvs nk now cursor latest ms = (hs, .error e)) :
    runTicks env cbp cvs nk now cursor ms (latest :: rest)
      = ([(hs, cursor)], cursor) := by
  conv_lhs => rw [runTicks]
  rw [hct]

lemma runTicks_cons_ok {E : Type} {env : ChainEnv E} {cbp cvs : Bool}
    {nk : List Char} {now : Int} {cursor latest c' : Nat}
    {ms ms' : TrackerMetrics} {rest : List Nat} {hs : List Nat}
    (hct : catchUpTick env cbp cvs nk now cursor latest ms
      = (hs, .ok (ms', c'))) :
    runTicks env cbp cvs nk now cursor ms (latest :: rest)
      = ((hs, c') :: (runTicks env cbp cvs nk now c' ms' rest).1,
          (runTicks env cbp cvs nk now c' ms' rest).2) := by
  conv_lhs => rw [runTicks]
  rw [hct]

/-- C2: over a catch-up pass from cursor 9 to tip 15 (heights 10..15)
with block-proof checking enabled, validator-set checking disabled, and
the tracked normalized key present in `signedBlsKeys` exactly at height
13, the pass succeeds, the vote-inclusion counter grows by exactly 1
(with its timestamp set), and the cursor lands on 15. -/
theorem c2_catchup_vote_inclusion {E : Type} (env : ChainEnv E)
    (nk : List Char) (now : Int) (ms : TrackerMetrics)
    (hbp : ∀ h, 10 ≤ h → h ≤ 15 →
      ∃ ks, env.blockProof h = .ok ks ∧
        (ks.any fun pk => normalizeBlsKey pk == nk) = decide (h = 13)) :
    catchUpTick env true false nk now 9 15 ms =
      ([10, 11, 12, 13, 14, 15],
        .ok ({ ms with voteInclusionTotal := ms.voteInclusionTotal + 1,
                       voteInclusionTs := now }, 15)) := by
  obtain ⟨k10, e10, a10⟩ := hbp 10 (by omega) (by omega)
  obtain ⟨k11, e11, a11⟩ := hbp 11 (by omega) (by omega)
  obtain ⟨k12, e12, a12⟩ := hbp 12 (by omega) (by omega)
  obtain ⟨k13, e13, a13⟩ := hbp 13 (by omega) (by omega)
  obtain ⟨k14, e14, a14⟩ := hbp 14 (by omega) (by omega)
  obtain ⟨k15, e15, a15⟩ := hbp 15 (by omega) (by omega)
  have h10 : checkHeight env true false nk now 10 ms = .ok ms := by
    rw [checkHeight_bpOnly e10, a10]
    rfl
  have h11 : checkHeight env true false nk now 11 ms = .ok ms := by
    rw [checkHeight_bpOnly e11, a11]
    rfl
  have h12 : checkHeight env true false nk now 12 ms = .ok ms := by
    rw [checkHeight_bpOnly e12, a12]
    rfl
  have h13 : checkHeight env true false nk now 13 ms =
      .ok { ms with voteInclusionTotal := ms.voteInclusionTotal + 1,
                    voteInclusionTs := now } := by
    rw [checkHeight_bpOnly e13, a13]
    rfl
  have h14 : checkHeight env true false nk now 14
      { ms with voteInclusionTotal := ms.voteInclusionTotal + 1,
                voteInclusionTs := now } =
      .ok { ms with voteInclusionTotal := ms.voteInclusionTotal + 1,
                    voteInclusionTs := now } := by
    rw [checkHeight_bpOnly e14, a14]
    rfl
  have h15 : checkHeight env true false nk now 15
      { ms with voteInclusionTotal := ms.voteInclusionTotal + 1,
                voteInclusionTs := now } =
      .ok { ms with voteInclusionTotal := ms.voteInclusionTotal + 1,
                    voteInclusionTs := now } := by
    rw [checkHeight_bpOnly e15, a15]
    rfl
  have hscan : scanHeights env true false nk now [10, 11, 12, 13, 14, 15] ms
      = ([10, 11, 12, 13, 14, 15],
          .ok { ms with voteInclusionTotal := ms.voteInclusionTotal + 1,
                        voteInclusionTs := now }) := by
    rw [scanHeights_cons_ok h10, scanHeights_cons_ok h11,
      scanHeights_cons_ok h12, scanHeights_cons_ok h13,
      scanHeights_cons_ok h14, scanHeights_cons_ok h15]
    rfl
  have hr : List.range' (9 + 1) (15 - 9) = [10, 11, 12, 13, 14, 15] := rfl
  unfold catchUpTick
  rw [if_neg (by omega : ¬ (15 : Nat) ≤ 9)]
  simp only [hr, hscan, Except.map]

/-- The oracle for the C2 witness: the proof at height 13 carries the
key `"ab"` (its own normal form), all other proofs are empty. -/
def c2WitnessEnv : ChainEnv Unit :=
  ⟨fun h => .ok (if h = 13 then [("ab").toList] else []), fun _ => .ok []⟩

/-- Witness for C2 at the concrete oracle `c2WitnessEnv`. -/
theorem c2_catchup_vote_inclusion_witness :
    catchUpTick c2WitnessEnv true false (("ab").toList) 5 9 15 ⟨0, 0, 0, 0⟩ =
      ([10, 11, 12, 13, 14, 15], .ok (⟨1, 5, 0, 0⟩, 15)) := by
  have hmain := c2_catchup_vote_inclusion c2WitnessEnv (("ab").toList) 5
    ⟨0, 0, 0, 0⟩ ?hbp
  · exact hmain
  case hbp =>
    intro h h1 h2
    refine ⟨_, rfl, ?_⟩
    by_cases h13 : h = 13
    · subst h13
      decide
    · simp [h13]

/-- C3: across any run of the poller loop — from any starting cursor,
against any oracle and any sequence of tip readings, including idle
ticks and erroring ticks — the cursor after each tick forms a
non-decreasing chain, no height ever appears twice among the scanned
heights, every scanned height lies strictly above the starting cursor,
and the final cursor is at least the starting one. -/
theorem c3_cursor_monotone_no_reprocess {E : Type} (env : ChainEnv E)
    (cbp cvs : Bool) (nk : List Char) (now : Int) (cursor : Nat)
    (ms : TrackerMetrics) (latests : List Nat) :
    List.Chain' (· ≤ ·)
      (cursor :: (runTicks env cbp cvs nk now cursor ms latests).1.map Prod.snd) ∧
    ((runTicks env cbp cvs nk now cursor ms latests).1.map Prod.fst).flatten.Nodup ∧
    (∀ x ∈ ((runTicks env cbp cvs nk now cursor ms latests).1.map Prod.fst).flatten,
      cursor < x) ∧
    cursor ≤ (runTicks env cbp cvs nk now cursor ms latests).2 := by
  induction latests generalizing cursor ms with
  | nil =>
    refine ⟨List.chain'_singleton cursor, ?_, ?_, le_refl cursor⟩
    · simp [runTicks]
    · simp [runTicks]
  | cons latest rest ih =>
    by_cases hle : latest ≤ cursor
    · rw [runTicks_cons_ok (catchUpTick_idle hle)]
      obtain ⟨ihc, ihn, ihm, ihle⟩ := ih cursor ms
      refine ⟨?_, ?_, ?_, ihle⟩
      · simp only [List.map_cons]
        exact List.chain'_cons.mpr ⟨le_refl cursor, ihc⟩
      · simpa using ihn
      · simpa using ihm
    · rcases hscan : scanHeights env cbp cvs nk now
          (List.range' (cursor + 1) (latest - cursor)) ms with ⟨hs, res⟩
      have hsub : hs.Sublist (List.range' (cursor + 1) (latest - cursor)) := by
        have hsl := scanHeights_sublist env cbp cvs nk now
          (List.range' (cursor + 1) (latest - cursor)) ms
        rw [hscan] at hsl
        exact hsl
      have hnd : hs.Nodup :=
        List.Nodup.sublist hsub (List.nodup_range' _ _)
      have hmem : ∀ x ∈ hs, cursor < x ∧ x ≤ latest := by
        intro x hx
        have := List.mem_range'_1.mp (hsub.subset hx)
        omega
      cases res with
      | error e =>
        rw [runTicks_cons_err (catchUpTick_active_err hle hscan)]
        refine ⟨?_, ?_, ?_, le_refl cursor⟩
        · exact List.chain'_cons.mpr ⟨le_refl cursor, List.chain'_singleton cursor⟩
        · simpa using hnd
        · intro x hx
          simp only [List.map_cons, List.map_nil, List.flatten_cons,
            List.flatten_nil, List.append_nil] at hx
          exact (hmem x hx).1
      | ok msf =>
        rw [runTicks_cons_ok (catchUpTick_active_ok hle hscan)]
        obtain ⟨ihc, ihn, ihm, ihle⟩ := ih latest msf
        refine ⟨?_, ?_, ?_, ?_⟩
        · simp only [List.map_cons]
          exact List.chain'_cons.mpr ⟨by omega, ihc⟩
        · simp only [List.map_cons, List.flatten_cons]
          refine List.Nodup.append hnd ihn ?_
          intro a ha hb
          have h1 := (hmem a ha).2
          have h2 := ihm a hb
          omega
        · intro x hx
          simp only [List.map_cons, List.flatten_cons, List.mem_append] at hx
          rcases hx with hx | hx
          · exact (hmem x hx).1
          · have := ihm x hx
            omega
        · calc cursor ≤ latest := by omega
            _ ≤ _ := ihle

/-- The first failing height ends the scan: when all heights before
`a + k` succeed and `a + k` fails with `e`, scanning `range' a n`
(for `k < n`) visits exactly `a .. a + k` and returns the error. -/
lemma scanHeights_err {E : Type} {env : ChainEnv E} {cbp cvs : Bool}
    {nk : List Char} {now : Int} {e : E} :
    ∀ (k a n : Nat) (ms : TrackerMetrics),
      (∀ i ms0, i < k →
        ∃ ms1, checkHeight env cbp cvs nk now (a + i) ms0 = .ok ms1) →
      (∀ ms0, checkHeight env cbp cvs nk now (a + k) ms0 = .error e) →
      k < n →
      scanHeights env cbp cvs nk now (List.range' a n) ms
        = (List.range' a (k + 1), .error e) := by
  intro k
  induction k with
  | zero =>
    intro a n ms hok herr hlt
    obtain ⟨m, rfl⟩ : ∃ m, n = m + 1 := ⟨n - 1, by omega⟩
    rw [List.range'_succ]
    conv_lhs => rw [scanHeights]
    have h0 := herr ms
    rw [Nat.add_zero] at h0
    rw [h0]
    rfl
  | succ k ihk =>
    intro a n ms hok herr hlt
    obtain ⟨m, rfl⟩ : ∃ m, n = m + 1 := ⟨n - 1, by omega⟩
    rw [List.range'_succ]
    obtain ⟨ms1, hms1⟩ := hok 0 ms (by omega)
    rw [Nat.add_zero] at hms1
    rw [scanHeights_cons_ok hms1]
    have hrec := ihk (a + 1) m ms1 ?hok' ?herr' ?hlt'
    · rw [hrec]
      conv_rhs => rw [List.range'_succ]
    case hok' =>
      intro i ms0 hi
      have hh := hok (i + 1) ms0 (by omega)
      rwa [show a + (i + 1) = a + 1 + i by omega] at hh
    case herr' =>
      intro ms0
      have hh := herr ms0
      rwa [show a + (k + 1) = a + 1 + k by omega] at hh
    case hlt' => omega

/-- C5: when block-proof or validator-set fetching fails at height `h`
of a catch-up scan (all heights before it succeeding), the tick visits
exactly the heights from `cursor+1` up to `h` — no height is skipped,
none beyond `h` is fetched — and returns that error; the loop ends with
the error propagated, the cursor unchanged, and no further tick run. -/
theorem c5_fetch_failure_aborts {E : Type} (env : ChainEnv E)
    (cbp cvs : Bool) (nk : List Char) (now : Int)
    (cursor latest h : Nat) (e : E) (ms : TrackerMetrics) (rest : List Nat)
    (hlo : cursor < h) (hhi : h ≤ latest)
    (hok : ∀ h' ms0, cursor < h' → h' < h →
      ∃ ms1, checkHeight env cbp cvs nk now h' ms0 = .ok ms1)
    (herr : ∀ ms0, checkHeight env cbp cvs nk now h ms0 = .error e) :
    catchUpTick env cbp cvs nk now cursor latest ms
      = (List.range' (cursor + 1) (h - cursor), .error e) ∧
    runTicks env cbp cvs nk now cursor ms (latest :: rest)
      = ([(List.range' (cursor + 1) (h - cursor), cursor)], cursor) := by
  have hscan := scanHeights_err (h - (cursor + 1)) (cursor + 1)
    (latest - cursor) ms
    (fun i ms0 hi => hok (cursor + 1 + i) ms0 (by omega) (by omega))
    (fun ms0 => by
      have hh := herr ms0
      rwa [show h = cursor + 1 + (h - (cursor + 1)) by omega] at hh)
    (by omega)
  rw [show h - (cursor + 1) + 1 = h - cursor by omega] at hscan
  have hcu : catchUpTick env cbp cvs nk now cursor latest ms
      = (List.range' (cursor + 1) (h - cursor), .error e) :=
    catchUpTick_active_err (by omega) hscan
  exact ⟨hcu, runTicks_cons_err hcu⟩

/-- The oracle for the C5 witness: the block proof errors at height 3
and is empty elsewhere. -/
def c5WitnessEnv : ChainEnv Unit :=
  ⟨fun h => if h = 3 then .error () else .ok [], fun _ => .ok []⟩

/-- Witness for C5 at the concrete oracle `c5WitnessEnv`: scanning from
cursor 1 toward tip 5 stops at the failing height 3, having visited
exactly heights 2 and 3. -/
theorem c5_fetch_failure_aborts_witness :
    ((1 : Nat) < 3 ∧ (3 : Nat) ≤ 5) ∧
    (catchUpTick c5WitnessEnv true false [] 0 1 5 ⟨0, 0, 0, 0⟩
        = (List.range' 2 2, .error ()) ∧
      runTicks c5WitnessEnv true false [] 0 1 ⟨0, 0, 0, 0⟩ [5]
        = ([(List.range' 2 2, 1)], 1)) :=
  ⟨⟨by omega, by omega⟩,
    c5_fetch_failure_aborts c5WitnessEnv true false [] 0 1 5 3 ()
      ⟨0, 0, 0, 0⟩ [] (by omega) (by omega)
      (fun h' ms0 h1 h2 => ⟨ms0, by
        have hh : h' = 2 := by omega
        subst hh
        rfl⟩)
      (fun ms0 => rfl)⟩

end Pharos
